import Mathlib

/-!
Verification development for the gmail-mcp repository.

The Python sources are shallowly embedded as executable Lean definitions:
- `src/src/utils/utils.py`   : `decode_base64url`
- `src/src/utils/gmail_utils.py` : `encode_email_header`, `validate_email`,
  `create_email_message`
- `src/src/tools.py`         : the pagination of `read_email`, the recursive
  `extract_email_body`, and the update-sanitizing part of `update_label_tool`
- `src/src/utils/label_manager.py` : `delete_label`, `find_label_by_name`

Python byte strings are modelled as `List Nat` (each entry < 256), Python
`str` as Lean `String`/`List Char` (both are sequences of Unicode code
points, so indexing and length agree).  Fallible code returns `Except`/
`Option`.  The standard-library codecs used by the sources
(`base64.urlsafe_b64encode/b64decode`, `str.encode("utf-8")`,
`bytes.decode("utf-8")`) are modelled bit-for-bit below.
-/

namespace GmailMCP

/-! ### UTF-8 codec (models Python `str.encode("utf-8")` / `bytes.decode("utf-8")`) -/

/-- Standard UTF-8 encoding of one code point (1 to 4 bytes).
Models CPython's UTF-8 encoder on a valid `Char` (Lean `Char` excludes
surrogates, exactly the values CPython's strict encoder accepts). -/
def utf8EncodeChar (c : Char) : List Nat :=
  let n := c.toNat
  if n < 0x80 then [n]
  else if n < 0x800 then [0xC0 + n / 64, 0x80 + n % 64]
  else if n < 0x10000 then [0xE0 + n / 4096, 0x80 + n / 64 % 64, 0x80 + n % 64]
  else [0xF0 + n / 262144, 0x80 + n / 4096 % 64, 0x80 + n / 64 % 64, 0x80 + n % 64]

/-- `s.encode("utf-8")` as a byte list. -/
def utf8Encode (s : String) : List Nat :=
  (s.data.map utf8EncodeChar).flatten

/-- Code point of a two-byte UTF-8 sequence, rejecting continuation
leads, out-of-range continuation bytes and overlong forms (`b0 < 0xC2`
covers both, as CPython does). -/
def utf8Cp2 (b0 b1 : Nat) : Option Nat :=
  if 0xC2 ≤ b0 ∧ 0x80 ≤ b1 ∧ b1 < 0xC0 then
    some ((b0 - 0xC0) * 64 + (b1 - 0x80))
  else none

/-- Code point of a three-byte UTF-8 sequence, rejecting bad
continuation bytes, overlong forms and surrogates. -/
def utf8Cp3 (b0 b1 b2 : Nat) : Option Nat :=
  let n := (b0 - 0xE0) * 4096 + (b1 - 0x80) * 64 + (b2 - 0x80)
  if (0x80 ≤ b1 ∧ b1 < 0xC0) ∧ (0x80 ≤ b2 ∧ b2 < 0xC0) ∧
     0x800 ≤ n ∧ ¬(0xD800 ≤ n ∧ n < 0xE000) then
    some n
  else none

/-- Code point of a four-byte UTF-8 sequence, rejecting bad leads
(`0xF5 ≤ b0`), bad continuation bytes, overlong forms and values past
U+10FFFF. -/
def utf8Cp4 (b0 b1 b2 b3 : Nat) : Option Nat :=
  let n := (b0 - 0xF0) * 262144 + (b1 - 0x80) * 4096 +
           (b2 - 0x80) * 64 + (b3 - 0x80)
  if b0 < 0xF5 ∧ (0x80 ≤ b1 ∧ b1 < 0xC0) ∧ (0x80 ≤ b2 ∧ b2 < 0xC0) ∧
     (0x80 ≤ b3 ∧ b3 < 0xC0) ∧ 0x10000 ≤ n ∧ n < 0x110000 then
    some n
  else none

mutual
/-- Strict UTF-8 decoder: models Python `bytes.decode("utf-8")`, which
rejects malformed sequences (continuation bytes out of range, overlong
forms, surrogates, out-of-range code points) by raising; here `none`.
The lead byte selects the sequence length; the helpers below collect the
continuation bytes one at a time and the matching `utf8Cp`_k_ validates
and assembles the code point. -/
def utf8Decode : List Nat → Option (List Char)
  | [] => some []
  | b0 :: rest =>
    if b0 < 0x80 then (utf8Decode rest).map (Char.ofNat b0 :: ·)
    else if b0 < 0xE0 then utf8DecodeTwo b0 rest
    else if b0 < 0xF0 then utf8DecodeThree b0 rest
    else utf8DecodeFour b0 rest

/-- Continuation of a two-byte sequence. -/
def utf8DecodeTwo (b0 : Nat) : List Nat → Option (List Char)
  | b1 :: rest1 =>
    match utf8Cp2 b0 b1 with
    | some n => (utf8Decode rest1).map (Char.ofNat n :: ·)
    | none => none
  | [] => none

/-- First continuation byte of a three-byte sequence. -/
def utf8DecodeThree (b0 : Nat) : List Nat → Option (List Char)
  | b1 :: rest1 => utf8DecodeThreeB b0 b1 rest1
  | [] => none

/-- Second continuation byte of a three-byte sequence. -/
def utf8DecodeThreeB (b0 b1 : Nat) : List Nat → Option (List Char)
  | b2 :: rest2 =>
    match utf8Cp3 b0 b1 b2 with
    | some n => (utf8Decode rest2).map (Char.ofNat n :: ·)
    | none => none
  | [] => none

/-- First continuation byte of a four-byte sequence. -/
def utf8DecodeFour (b0 : Nat) : List Nat → Option (List Char)
  | b1 :: rest1 => utf8DecodeFourB b0 b1 rest1
  | [] => none

/-- Second continuation byte of a four-byte sequence. -/
def utf8DecodeFourB (b0 b1 : Nat) : List Nat → Option (List Char)
  | b2 :: rest2 => utf8DecodeFourC b0 b1 b2 rest2
  | [] => none

/-- Third continuation byte of a four-byte sequence. -/
def utf8DecodeFourC (b0 b1 b2 : Nat) : List Nat → Option (List Char)
  | b3 :: rest3 =>
    match utf8Cp4 b0 b1 b2 b3 with
    | some n => (utf8Decode rest3).map (Char.ofNat n :: ·)
    | none => none
  | [] => none
end

/-! ### Base64 codec (models Python `base64` as used by the sources) -/

/-- The URL-safe base64 alphabet (Python `base64.urlsafe_b64encode`). -/
def b64urlAlphabet : List Char :=
  ['A','B','C','D','E','F','G','H','I','J','K','L','M',
   'N','O','P','Q','R','S','T','U','V','W','X','Y','Z',
   'a','b','c','d','e','f','g','h','i','j','k','l','m',
   'n','o','p','q','r','s','t','u','v','w','x','y','z',
   '0','1','2','3','4','5','6','7','8','9','-','_']

/-- The standard base64 alphabet (Python `base64.b64encode`, used by
`encode_email_header`). -/
def b64stdAlphabet : List Char :=
  ['A','B','C','D','E','F','G','H','I','J','K','L','M',
   'N','O','P','Q','R','S','T','U','V','W','X','Y','Z',
   'a','b','c','d','e','f','g','h','i','j','k','l','m',
   'n','o','p','q','r','s','t','u','v','w','x','y','z',
   '0','1','2','3','4','5','6','7','8','9','+','/']

/-- The 6-bit value `n` rendered in the given alphabet. -/
def b64char (alph : List Char) (n : Nat) : Char := alph.getD n '?'

/-- Base64 encoding of a byte list with `=` padding, three bytes at a
time, over the given alphabet (RFC 4648, as `binascii.b2a_base64`). -/
def b64encodeWith (alph : List Char) : List Nat → List Char
  | [] => []
  | [b0] =>
    [b64char alph (b0 / 4), b64char alph (b0 % 4 * 16), '=', '=']
  | [b0, b1] =>
    [b64char alph (b0 / 4), b64char alph (b0 % 4 * 16 + b1 / 16),
     b64char alph (b1 % 16 * 4), '=']
  | b0 :: b1 :: b2 :: rest =>
    b64char alph (b0 / 4) :: b64char alph (b0 % 4 * 16 + b1 / 16) ::
    b64char alph (b1 % 16 * 4 + b2 / 64) :: b64char alph (b2 % 64) ::
    b64encodeWith alph rest

/-- `base64.urlsafe_b64encode` of a byte string, as characters. -/
def urlsafe_b64encode (bs : List Nat) : List Char :=
  b64encodeWith b64urlAlphabet bs

/-- `base64.b64encode` of a byte string, as characters. -/
def b64encode (bs : List Nat) : List Char :=
  b64encodeWith b64stdAlphabet bs

/-- Value of one URL-safe base64 character. -/
def b64urlDecChar (c : Char) : Option Nat := b64urlAlphabet.indexOf? c

/-- `base64.urlsafe_b64decode` on a correctly padded input whose
characters are drawn from the URL-safe alphabet plus trailing `=`
(the only inputs the repository feeds it): four characters become
three bytes, a `xx==` tail one byte, a `xxx=` tail two bytes. -/
def urlsafe_b64decode : List Char → Option (List Nat)
  | [] => some []
  | c0 :: c1 :: c2 :: c3 :: rest =>
    match b64urlDecChar c0, b64urlDecChar c1 with
    | some n0, some n1 =>
      if c2 = '=' then
        if c3 = '=' ∧ rest = [] then some [n0 * 4 + n1 / 16] else none
      else
        match b64urlDecChar c2 with
        | some n2 =>
          if c3 = '=' then
            if rest = [] then some [n0 * 4 + n1 / 16, n1 % 16 * 16 + n2 / 4]
            else none
          else
            match b64urlDecChar c3 with
            | some n3 =>
              match urlsafe_b64decode rest with
              | some bs =>
                some ((n0 * 4 + n1 / 16) :: (n1 % 16 * 16 + n2 / 4) ::
                      (n2 % 4 * 64 + n3) :: bs)
              | none => none
            | none => none
        | none => none
    | _, _ => none
  | _ => none

/-- Python `str.rstrip("=")` on a character list. -/
def rstripEq (s : List Char) : List Char :=
  (s.reverse.dropWhile (· = '=')).reverse

/-- `"=" * (-len(data) % 4)` : the padding restored by `decode_base64url`
(`src/src/utils/utils.py`, line 22). -/
def restorePad (s : List Char) : List Char :=
  s ++ List.replicate ((4 - s.length % 4) % 4) '='

/-- `decode_base64url` (`src/src/utils/utils.py`): restore the omitted
`=` padding, base64url-decode, then UTF-8-decode.  Decoding failures
(Python `binascii.Error` / `UnicodeDecodeError`) are `none`. -/
def decode_base64url (data : List Char) : Option (List Char) :=
  match urlsafe_b64decode (restorePad data) with
  | some bytes => utf8Decode bytes
  | none => none

/-! ### `gmail_utils.py` : header encoding, address validation, message
construction -/

/-- Python `\s` on the characters the repository can meet (ASCII
whitespace). -/
def pySpace (c : Char) : Bool :=
  c = ' ' || c = '\t' || c = '\n' || c = '\r' || c = '\x0b' || c = '\x0c'

/-- `re.search(r'[^\x00-\x7F]', text)`: does the string contain a
non-ASCII character? -/
def hasNonAscii (text : String) : Bool :=
  text.data.any (fun c => 0x7F < c.toNat)

/-- `encode_email_header` (`gmail_utils.py`, lines 48-58): a header value
with a non-ASCII character is base64-encoded (standard alphabet) from its
UTF-8 bytes and wrapped in the RFC 2047 form; otherwise returned as is. -/
def encode_email_header (text : String) : String :=
  if hasNonAscii text then
    "=?UTF-8?b?" ++ String.mk (b64encode (utf8Encode text)) ++ "?="
  else text

/-- A character admitted by `[^\s@]` in `validate_email`'s pattern. -/
def addrChar (c : Char) : Bool := !pySpace c && c ≠ '@'

/-- `validate_email` (`gmail_utils.py`, lines 61-67): full match against
`^[^\s@]+@[^\s@]+\.[^\s@]+$`.  A string matches exactly when it splits as
`local @ domain` (so exactly one `@`), both sides non-empty sequences of
non-space non-`@` characters, and the domain has a `.` that is neither
its first nor its last character. -/
def validate_email (email : String) : Bool :=
  match email.data.splitOn '@' with
  | [l, d] =>
    !l.isEmpty && l.all addrChar && !d.isEmpty && d.all addrChar &&
    ((d.drop 1).dropLast).contains '.'
  | _ => false

/-- The argument dictionary consumed by `create_email_message`
(`gmail_utils.py`, lines 70-99).  `none` models an absent key (or the
`None` that `tools.py` passes through for the optional fields). -/
structure EmailArgs where
  from_ : Option String
  toAddrs : List String
  cc : Option (List String)
  bcc : Option (List String)
  in_reply_to : Option String
  subject : Option String
  body : Option String
  attachments : Option (List String)
deriving DecidableEq

/-- Header lines of the no-attachment path (`gmail_utils.py`, lines
103-116), in emission order.  `cc`/`bcc`/`in_reply_to` are guarded by
Python truthiness (`None`, `[]` and `""` are all skipped). -/
def plainHeaders (args : EmailArgs) : List String :=
  ["From: " ++ args.from_.getD "me",
   "To: " ++ String.intercalate ", " args.toAddrs]
  ++ (match args.cc with
      | some (c :: cs) => ["Cc: " ++ String.intercalate ", " (c :: cs)]
      | _ => [])
  ++ (match args.bcc with
      | some (b :: bs) => ["Bcc: " ++ String.intercalate ", " (b :: bs)]
      | _ => [])
  ++ ["Subject: " ++ encode_email_header (args.subject.getD "")]
  ++ (match args.in_reply_to with
      | some r => if r = "" then [] else ["In-Reply-To: " ++ r, "References: " ++ r]
      | none => [])
  ++ ["MIME-Version: 1.0",
      "Content-Type: text/plain; charset=UTF-8",
      "Content-Transfer-Encoding: 7bit"]

/-- `"\r\n".join(headers) + "\r\n\r\n" + body` (`gmail_utils.py`, line 118). -/
def plainMessage (args : EmailArgs) : String :=
  String.intercalate "\r\n" (plainHeaders args) ++ "\r\n\r\n" ++ args.body.getD ""

/-- Header lines of the multipart path (`gmail_utils.py`, lines 139-148). -/
def multipartHeaders (args : EmailArgs) : List String :=
  ["From: " ++ args.from_.getD "me",
   "To: " ++ String.intercalate ", " args.toAddrs]
  ++ (match args.cc with
      | some (c :: cs) => ["Cc: " ++ String.intercalate ", " (c :: cs)]
      | _ => [])
  ++ (match args.bcc with
      | some (b :: bs) => ["Bcc: " ++ String.intercalate ", " (b :: bs)]
      | _ => [])
  ++ ["Subject: " ++ encode_email_header (args.subject.getD "")]
  ++ (match args.in_reply_to with
      | some r => if r = "" then [] else ["In-Reply-To: " ++ r, "References: " ++ r]
      | none => [])

/-- Result of `create_email_message`: the plain path returns the joined
string literally; the multipart path is kept structurally (its
`as_string()` serialization embeds a freshly generated boundary, so only
the headers, body text and attachment paths are deterministic). -/
inductive MimeMessage where
  | plain (message : String)
  | multipart (headers : List String) (bodyText : String) (attachmentPaths : List String)
deriving DecidableEq

/-- `24 * 1024 * 1024` (`gmail_utils.py`, line 134). -/
def maxAttachmentBytes : Nat := 24 * 1024 * 1024

/-- `create_email_message` (`gmail_utils.py`, lines 70-168).  The
filesystem is a parameter: `fs path = some n` means `os.path.isfile path`
holds and `os.path.getsize path = n`; `fs path = none` means the path is
not a regular file.  Raised `ValueError`s become `Except.error` with the
source's message; steps occur in source order: `to`-address validation,
then (when a non-empty attachment list is present) per-path existence,
then the total-size cap, then construction. -/
def create_email_message (fs : String → Option Nat) (args : EmailArgs) :
    Except String MimeMessage :=
  match args.toAddrs.find? (fun a => !validate_email a) with
  | some addr => .error ("Invalid email address: " ++ addr)
  | none =>
    match args.attachments with
    | none => .ok (.plain (plainMessage args))
    | some [] => .ok (.plain (plainMessage args))
    | some (p0 :: ps) =>
      match (p0 :: ps).find? (fun p => (fs p).isNone) with
      | some p => .error ("Attachment not found: " ++ p)
      | none =>
        let total := ((p0 :: ps).map (fun p => (fs p).getD 0)).sum
        if total > maxAttachmentBytes then
          .error ("Attachments too large: total " ++ toString total ++
                  " bytes exceeds limit " ++ toString maxAttachmentBytes ++ " bytes")
        else
          .ok (.multipart (multipartHeaders args) (args.body.getD "") (p0 :: ps))

/-! ### `tools.py` : `read_email` pagination -/

/-- The JSON object returned by `read_email` (`tools.py`, lines 144-149). -/
structure ReadEmailResult where
  text : String
  html : String
  truncated : Bool
  nextOffset : Option Nat
deriving DecidableEq

/-- The pagination step of `read_email` (`tools.py`, lines 136-149):
`limit = args.get("htmlLimit", 10_000)`, `offset = args.get("htmlOffset", 0)`,
`html_chunks = html[offset : offset + limit]`,
`truncated = len(html) > offset + limit`,
`nextOffset = offset + limit if truncated else None`.
Python strings index by code point, as `String.data` does. -/
def read_email_paginate (text html : String) (htmlOffset htmlLimit : Option Nat) :
    ReadEmailResult :=
  let limit := htmlLimit.getD 10000
  let offset := htmlOffset.getD 0
  { text := text
    html := String.mk ((html.data.drop offset).take limit)
    truncated := decide (html.length > offset + limit)
    nextOffset := if html.length > offset + limit then some (offset + limit) else none }

/-! ### `tools.py` : HTML filtering inside `extract_email_body`

`read_email` runs the decoded HTML payload through
`BeautifulSoup(content, "html.parser")`, collects
`soup.find_all(["p", "div"])` in document order, takes
`get_text(strip=True)` of each hit and joins the results with `"\n"`
(`tools.py`, lines 124-127).  BeautifulSoup is an external collaborator;
it is modelled here on well-formed, attribute-free markup: a document is
a forest of element nodes (`<tag>.. children ..</tag>`) and text nodes. -/

/-- A parsed HTML node. -/
inductive HNode where
  | text (s : List Char) : HNode
  | elem (tag : List Char) (children : List HNode) : HNode

/-- Read up to the closing `>` of a tag: returns the tag content and the
input after the `>`. -/
def readTag : List Char → List Char × List Char
  | [] => ([], [])
  | '>' :: rest => ([], rest)
  | c :: rest =>
    let (t, r) := readTag rest
    (c :: t, r)

/-- Recursive-descent parse of a node list, stopping at a closing tag.
The fuel argument only bounds the recursion depth; `parseHTML` supplies
more than can ever be consumed, since every nested call eats input. -/
def parseNodes : Nat → List Char → List HNode × List Char
  | 0, input => ([], input)
  | _ + 1, [] => ([], [])
  | _ + 1, '<' :: '/' :: rest =>
    let (_, r) := readTag rest
    ([], r)
  | fuel + 1, '<' :: rest =>
    let (tag, r) := readTag rest
    let (children, r1) := parseNodes fuel r
    let (siblings, r2) := parseNodes fuel r1
    (HNode.elem tag children :: siblings, r2)
  | fuel + 1, c :: rest =>
    let (siblings, r1) := parseNodes fuel ((c :: rest).dropWhile (· ≠ '<'))
    (HNode.text ((c :: rest).takeWhile (· ≠ '<')) :: siblings, r1)

/-- Parse a whole document into its node forest. -/
def parseHTML (content : List Char) : List HNode :=
  (parseNodes (2 * content.length + 2) content).1

/-- Python `str.strip()` (whitespace from both ends). -/
def stripChars (s : List Char) : List Char :=
  ((s.dropWhile pySpace).reverse.dropWhile pySpace).reverse

mutual
/-- `get_text(strip=True)`: every descendant text fragment stripped and
concatenated in document order (the empty separator makes BeautifulSoup's
skipping of blank fragments invisible). -/
def getTextStrip : HNode → List Char
  | .text s => stripChars s
  | .elem _ children => getTextStripList children

/-- `getTextStrip` over a node list, in order. -/
def getTextStripList : List HNode → List Char
  | [] => []
  | n :: rest => getTextStrip n ++ getTextStripList rest
end

mutual
/-- The `p`/`div` elements at or below one node, in document order (the
node itself before its descendants). -/
def findPDivNode : HNode → List HNode
  | .text _ => []
  | .elem tag children =>
    (if tag = "p".data || tag = "div".data then [HNode.elem tag children] else [])
    ++ findAllPDiv children

/-- `soup.find_all(["p", "div"])`: all `p`/`div` elements of the forest
in document order. -/
def findAllPDiv : List HNode → List HNode
  | [] => []
  | n :: rest => findPDivNode n ++ findAllPDiv rest
end

/-- Lines 124-127 of `tools.py`: the filtered rendering of one HTML
payload, fragments joined with newlines. -/
def htmlExtract (content : List Char) : List Char :=
  List.intercalate ['\n'] ((findAllPDiv (parseHTML content)).map getTextStrip)

/-! ### `tools.py` : recursive `extract_email_body` -/

/-- One node of the message-part tree handed back by the mail API
(`payload` of a message): an optional MIME type tag, an optional inline
base64url body payload (`part["body"]["data"]`), and the ordered child
parts. -/
inductive MessagePart where
  | mk (mimeType : Option String) (bodyData : Option (List Char))
       (parts : List MessagePart) : MessagePart

/-- Lines 119-127 of `tools.py`: the contribution of a part's own inline
payload to `(text, html)`.  When a payload is present it is decoded
first (a decoding failure raises out of the whole extraction, modelled
by `none`), then dispatched on the type tag. -/
def ownPayload (mimeType : Option String) (bodyData : Option (List Char)) :
    Option (List Char × List Char) :=
  match bodyData with
  | none => some ([], [])
  | some data =>
    match decode_base64url data with
    | none => none
    | some content =>
      if mimeType = some "text/plain" then some (content, [])
      else if mimeType = some "text/html" then some ([], htmlExtract content)
      else some ([], [])

mutual
/-- `extract_email_body` (`tools.py`, lines 115-132): the part's own
payload first, then every child part in list order, text and HTML
accumulated by concatenation. -/
def extract_email_body : MessagePart → Option (List Char × List Char)
  | .mk mimeType bodyData parts =>
    match ownPayload mimeType bodyData with
    | none => none
    | some th => extract_email_parts th parts

/-- The `for sub in part.get("parts", [])` loop of `extract_email_body`. -/
def extract_email_parts : List Char × List Char → List MessagePart →
    Option (List Char × List Char)
  | th, [] => some th
  | th, p :: rest =>
    match extract_email_body p with
    | none => none
    | some th' => extract_email_parts (th.1 ++ th'.1, th.2 ++ th'.2) rest
end

/-- The decoded `text/plain` payload of a single part's own body, as a
zero- or one-element list. -/
def plainOwn (mimeType : Option String) (bodyData : Option (List Char)) :
    List (List Char) :=
  match bodyData with
  | some data =>
    if mimeType = some "text/plain" then [(decode_base64url data).getD []] else []
  | none => []

/-- The filtered rendering of a single part's own `text/html` payload,
as a zero- or one-element list. -/
def htmlOwn (mimeType : Option String) (bodyData : Option (List Char)) :
    List (List Char) :=
  match bodyData with
  | some data =>
    if mimeType = some "text/html" then
      [htmlExtract ((decode_base64url data).getD [])]
    else []
  | none => []

mutual
/-- The decoded `text/plain` payloads of a tree in traversal order (the
part's own payload before its children, children in list order).  Used to
state what `extract_email_body` accumulates. -/
def plainPayloads : MessagePart → List (List Char)
  | .mk mimeType bodyData parts => plainOwn mimeType bodyData ++ plainPayloadsList parts

/-- `plainPayloads` over a part list, in order. -/
def plainPayloadsList : List MessagePart → List (List Char)
  | [] => []
  | p :: rest => plainPayloads p ++ plainPayloadsList rest
end

mutual
/-- The filtered renderings of the `text/html` payloads of a tree in the
same traversal order. -/
def htmlPayloads : MessagePart → List (List Char)
  | .mk mimeType bodyData parts => htmlOwn mimeType bodyData ++ htmlPayloadsList parts

/-- `htmlPayloads` over a part list, in order. -/
def htmlPayloadsList : List MessagePart → List (List Char)
  | [] => []
  | p :: rest => htmlPayloads p ++ htmlPayloadsList rest
end

/-! ### `label_manager.py` : labels -/

/-- The `color` sub-dictionary of a label resource. -/
structure LabelColor where
  textColor : Option String
  backgroundColor : Option String
deriving DecidableEq

/-- One label dictionary as returned by the provider's `labels` API;
`none` models an absent key (`ltype` stands for the `type` key).  An
absent and an empty `color` both behave as falsy in the source, so both
are `none` here. -/
structure LabelData where
  id : Option String
  name : Option String
  ltype : Option String
  messageListVisibility : Option String
  labelListVisibility : Option String
  messagesTotal : Option Nat
  messagesUnread : Option Nat
  color : Option LabelColor
deriving DecidableEq

/-- The `GmailLabel` dataclass (`label_manager.py`, lines 21-43). -/
structure GmailLabel where
  id : Option String
  name : String
  ltype : Option String
  messageListVisibility : Option String
  labelListVisibility : Option String
  messagesTotal : Option Nat
  messagesUnread : Option Nat
  color : Option LabelColor
deriving DecidableEq

/-- `delete_label` (`label_manager.py`, lines 106-126) against a label
store (the list the provider's `get` answers from).  The result pairs the
outcome with whether the remote `labels().delete` call was issued.  A
`get` miss is the 404 branch; a `system`-typed label raises before any
delete call. -/
def delete_label (labels : List LabelData) (label_id : String) :
    Except String String × Bool :=
  match labels.find? (fun l => l.id = some label_id) with
  | none => (.error ("Label with ID '" ++ label_id ++ "' not found"), false)
  | some data =>
    if data.ltype = some "system" then
      (.error ("Cannot delete system label '" ++ label_id ++ "'"), false)
    else
      (.ok ("Label '" ++ data.name.getD "None" ++ "' deleted successfully"), true)

/-- Python `str.lower()`, applied character by character (the sources
only meet characters whose lowercasing is a single character). -/
def pyLower (s : String) : String := String.mk (s.data.map Char.toLower)

/-- `find_label_by_name` (`label_manager.py`, lines 158-188): first label
whose name compares equal case-insensitively, packed into a `GmailLabel`;
`none` when nothing matches. -/
def find_label_by_name (labels : List LabelData) (label_name : String) :
    Option GmailLabel :=
  match labels.find? (fun d => pyLower (d.name.getD "") = pyLower label_name) with
  | none => none
  | some d =>
    some { id := d.id
           name := d.name.getD ""
           ltype := d.ltype
           messageListVisibility := d.messageListVisibility
           labelListVisibility := d.labelListVisibility
           messagesTotal := d.messagesTotal
           messagesUnread := d.messagesUnread
           color := d.color }

/-- A Python exception escaping a tool call. -/
inductive PyError where
  | attributeError (msg : String)
  | valueError (msg : String)
deriving DecidableEq

/-- `find_label_by_name_tool` (`tools.py`, lines 435-447): the lookup
result is dereferenced unconditionally, so a miss evaluates `None.id`,
which raises `AttributeError` (f-string interpolation prints an absent
id as `None`). -/
def find_label_by_name_tool (labels : List LabelData) (name : String) :
    Except PyError String :=
  match find_label_by_name labels name with
  | none => .error (.attributeError "'NoneType' object has no attribute 'id'")
  | some lbl => .ok ("Label found: " ++ lbl.id.getD "None" ++ ": " ++ lbl.name)

/-! ### `tools.py` : the update-sanitizing part of `update_label_tool`
(lines 389-421) -/

/-- A value in the proposed `updates` mapping: either a non-dictionary
value (strings for name/visibility fields) or a color sub-object with
its two optional fields. -/
inductive UpdateValue where
  | prim (s : String)
  | colorObj (textColor : Option String) (backgroundColor : Option String)
deriving DecidableEq

/-- `allowed_top` (`tools.py`, line 390). -/
def allowed_top : List String :=
  ["name", "messageListVisibility", "labelListVisibility", "color"]

/-- `allowed_backgrounds` (`tools.py`, lines 391-396): the 24-entry
background palette. -/
def allowed_backgrounds : List String :=
  ["#ac2b16", "#cc3a21", "#eaa041", "#f2c960", "#16a766", "#43d692",
   "#3c78d8", "#4986e7", "#8e63ce", "#b99aff", "#f691b2", "#e07798",
   "#616161", "#a4c2f4", "#d0bcf1", "#fbc8d9", "#f6c5be", "#e4d7f5",
   "#fad165", "#fef1d1", "#c6f3de", "#a0eac9", "#c9daf8", "#b3efd3"]

/-- `allowed_texts` (`tools.py`, line 397). -/
def allowed_texts : List String := ["#ffffff", "#000000"]

/-- The `for k, v in raw_updates.items()` loop (`tools.py`, lines
399-418) with the accumulated sanitized entries: unknown top-level keys
and non-dictionary color values are skipped; a present `textColor` is
checked first, then a present `backgroundColor`, each aborting with a
`ValueError` naming the field and value when outside its palette; a color
object is added only when at least one field was present. -/
def sanitizeLoop : List (String × UpdateValue) → List (String × UpdateValue) →
    Except String (List (String × UpdateValue))
  | [], acc =>
    if acc.isEmpty then .error "No valid update fields provided" else .ok acc
  | (k, v) :: rest, acc =>
    if k ∈ allowed_top then
      if k = "color" then
        match v with
        | .prim _ => sanitizeLoop rest acc
        | .colorObj tc bg =>
          match tc with
          | some t =>
            if t ∈ allowed_texts then
              match bg with
              | some b =>
                if b ∈ allowed_backgrounds then
                  sanitizeLoop rest (acc ++ [("color", .colorObj (some t) (some b))])
                else .error ("Invalid backgroundColor: " ++ b)
              | none => sanitizeLoop rest (acc ++ [("color", .colorObj (some t) none)])
            else .error ("Invalid textColor: " ++ t)
          | none =>
            match bg with
            | some b =>
              if b ∈ allowed_backgrounds then
                sanitizeLoop rest (acc ++ [("color", .colorObj none (some b))])
              else .error ("Invalid backgroundColor: " ++ b)
            | none => sanitizeLoop rest acc
      else sanitizeLoop rest (acc ++ [(k, v)])
    else sanitizeLoop rest acc

/-- The sanitized updates `update_label_tool` would send for a proposed
updates mapping (entries in dictionary iteration order), or the
`ValueError` it raises (`tools.py`, lines 399-421, including the final
no-valid-fields check). -/
def sanitize_updates (raw : List (String × UpdateValue)) :
    Except String (List (String × UpdateValue)) :=
  sanitizeLoop raw []

/-- A proposed updates map contains a color sub-object with a field
value outside its palette. -/
def hasInvalidColorField (raw : List (String × UpdateValue)) : Prop :=
  ∃ tc bg, ("color", UpdateValue.colorObj tc bg) ∈ raw ∧
    ((∃ t, tc = some t ∧ t ∉ allowed_texts) ∨
     (∃ b, bg = some b ∧ b ∉ allowed_backgrounds))

/-- The sanitizer's outcome is a validation error naming one of the
offending field values of the map, tagged with its field. -/
def namesInvalidColor (raw : List (String × UpdateValue))
    (e : Except String (List (String × UpdateValue))) : Prop :=
  ∃ v, (e = .error ("Invalid textColor: " ++ v) ∧ v ∉ allowed_texts ∧
          ∃ bg, ("color", UpdateValue.colorObj (some v) bg) ∈ raw) ∨
       (e = .error ("Invalid backgroundColor: " ++ v) ∧ v ∉ allowed_backgrounds ∧
          ∃ tc, ("color", UpdateValue.colorObj tc (some v)) ∈ raw)

/-! ### Concrete fixtures used by the example theorems -/

/-- A filesystem with no regular files. -/
def fsEmpty : String → Option Nat := fun _ => none

/-- A filesystem with one 25,165,825-byte file (one byte over the cap). -/
def fsBig : String → Option Nat :=
  fun p => if p = "/tmp/big" then some 25165825 else none

/-- Request with a well-formed `to` address and a malformed `cc` address. -/
def argsBadCc : EmailArgs :=
  { from_ := none, toAddrs := ["a@b.c"], cc := some ["not-an-email"],
    bcc := none, in_reply_to := none, subject := some "s", body := some "b",
    attachments := none }

/-- Request whose first `to` address is malformed. -/
def argsBadTo : EmailArgs :=
  { from_ := none, toAddrs := ["no-at-sign", "a@b.c"], cc := none,
    bcc := none, in_reply_to := none, subject := some "s", body := some "b",
    attachments := none }

/-- Request with a malformed `to` address and an oversized attachment. -/
def argsBadToBigAtt : EmailArgs :=
  { from_ := none, toAddrs := ["bad"], cc := none, bcc := none,
    in_reply_to := none, subject := some "s", body := some "b",
    attachments := some ["/tmp/big"] }

/-- Request with a valid `to` address and an oversized attachment. -/
def argsBigAtt : EmailArgs :=
  { from_ := none, toAddrs := ["a@b.c"], cc := none, bcc := none,
    in_reply_to := none, subject := some "s", body := some "b",
    attachments := some ["/tmp/big"] }

/-- Request whose valid `to` address contains a non-ASCII character. -/
def argsNonAsciiTo : EmailArgs :=
  { from_ := none, toAddrs := ["ü@b.c"], cc := none, bcc := none,
    in_reply_to := none, subject := some "hi", body := some "x",
    attachments := none }

/-- 15,000-character HTML accumulator for the pagination example. -/
def html15000 : String := String.mk (List.replicate 15000 'a')

/-- A store with a single system label. -/
def labelsOneSystem : List LabelData :=
  [{ id := some "INBOX", name := some "INBOX", ltype := some "system",
     messageListVisibility := none, labelListVisibility := none,
     messagesTotal := none, messagesUnread := none, color := none }]

/-- A store with a single user label named Work. -/
def labelsOneUser : List LabelData :=
  [{ id := some "Label_7", name := some "Work", ltype := some "user",
     messageListVisibility := none, labelListVisibility := none,
     messagesTotal := none, messagesUnread := none, color := none }]

/-- The message-part tree of the Hello-world example: a `text/plain`
leaf "Hello" at depth one and a `text/plain` leaf " world" at depth two
(`SGVsbG8` and `IHdvcmxk` are their unpadded base64url payloads). -/
def helloWorldTree : MessagePart :=
  .mk (some "multipart/mixed") none
    [.mk (some "text/plain") (some "SGVsbG8".data) [],
     .mk (some "multipart/alternative") none
       [.mk (some "text/plain") (some "IHdvcmxk".data) []]]

/-- A single `text/html` part whose decoded payload is
`<div>A</div><p>B</p>` (payload `PGRpdj5BPC9kaXY+PHA+QjwvcD4`). -/
def divAPBTree : MessagePart :=
  .mk (some "text/html")
    (some (rstripEq (urlsafe_b64encode (utf8Encode "<div>A</div><p>B</p>")))) []

/-- Induction along the three-byte chunking used by the base64 encoder. -/
def list_chunk3_induction (motive : List Nat → Prop) (h0 : motive [])
    (h1 : ∀ b0, motive [b0]) (h2 : ∀ b0 b1, motive [b0, b1])
    (h3 : ∀ b0 b1 b2 rest, motive rest → motive (b0 :: b1 :: b2 :: rest)) :
    ∀ bs, motive bs
  | [] => h0
  | [b0] => h1 b0
  | [b0, b1] => h2 b0 b1
  | b0 :: b1 :: b2 :: rest =>
    h3 b0 b1 b2 rest (list_chunk3_induction motive h0 h1 h2 h3 rest)

/-! ## Theorems -/

/-- C4: for every extracted HTML accumulator and every offset and limit
(defaulting to 0 and 10,000), `read_email` returns exactly the substring
at `[offset, offset + limit)`, a `truncated` flag that is true exactly
when characters remain beyond `offset + limit`, and `nextOffset` equal
to `offset + limit` when truncated and absent otherwise; for a 15,000
character accumulator the first call with defaults returns
`truncated = true`, `nextOffset = 10000`, and the call at offset 10,000
returns the remaining 5,000 characters with `truncated = false` and no
`nextOffset`. -/
theorem read_email_pagination_correct :
    (∀ (text html : String) (off lim : Nat),
      (read_email_paginate text html (some off) (some lim)).html.data
          = (html.data.drop off).take lim ∧
      ((read_email_paginate text html (some off) (some lim)).truncated = true ↔
          off + lim < html.length) ∧
      (read_email_paginate text html (some off) (some lim)).nextOffset
          = (if off + lim < html.length then some (off + lim) else none)) ∧
    (∀ (text html : String),
      read_email_paginate text html none none
          = read_email_paginate text html (some 0) (some 10000)) ∧
    read_email_paginate "t" html15000 none none
        = { text := "t", html := String.mk (List.replicate 10000 'a'),
            truncated := true, nextOffset := some 10000 } ∧
    read_email_paginate "t" html15000 (some 10000) none
        = { text := "t", html := String.mk (List.replicate 5000 'a'),
            truncated := false, nextOffset := none } := by
  have hdata : html15000.data = List.replicate 15000 'a' := rfl
  have hlen : html15000.length = 15000 := by
    have h0 : html15000.length = (List.replicate 15000 'a').length := rfl
    rw [h0, List.length_replicate]
  refine ⟨fun text html off lim => ⟨rfl, ?_, ?_⟩, fun text html => rfl, ?_, ?_⟩
  · simp [read_email_paginate, GT.gt]
  · simp [read_email_paginate, GT.gt]
  · norm_num [read_email_paginate, hdata, hlen, List.take_replicate, List.drop_replicate]
  · norm_num [read_email_paginate, hdata, hlen, List.take_replicate, List.drop_replicate]

/-- C1 (amended): every address in `to` is validated against the
pattern; when some `to` address fails, construction aborts with an
address-format error naming the first failing address, before any output
is produced.  Addresses in `cc`/`bcc` are not validated. -/
theorem create_email_message_validates_to :
    ∀ (fs : String → Option Nat) (args : EmailArgs) (addr : String),
      args.toAddrs.find? (fun a => !validate_email a) = some addr →
      validate_email addr = false ∧ addr ∈ args.toAddrs ∧
      create_email_message fs args = .error ("Invalid email address: " ++ addr) := by
  intro fs args addr h
  refine ⟨?_, List.mem_of_find?_eq_some h, ?_⟩
  · have := List.find?_some h
    simpa using this
  · simp [create_email_message, h]

/-- C1 witness: the first malformed `to` address aborts construction. -/
theorem create_email_message_validates_to_witness :
    validate_email "no-at-sign" = false ∧ "no-at-sign" ∈ argsBadTo.toAddrs ∧
    create_email_message fsEmpty argsBadTo
        = .error ("Invalid email address: " ++ "no-at-sign") :=
  create_email_message_validates_to fsEmpty argsBadTo "no-at-sign" (by rfl)

/-- C1 counterexample: a request whose `cc` entry is not an address at
all still constructs successfully, so malformed `cc`/`bcc` addresses do
not abort construction as the claim states. -/
theorem cc_address_not_validated :
    validate_email "not-an-email" = false ∧
    create_email_message fsEmpty argsBadCc = .ok (.plain (plainMessage argsBadCc)) := by
  exact ⟨by decide, by rfl⟩

/-- C2 (amended): for a request whose `to` addresses all validate and
whose non-empty attachment list has every path an existing regular file,
the byte sizes are summed before any encoding and the sum is compared
against 24 MiB (25,165,824 bytes): strictly above, construction aborts
with a size-limit error spelling out the computed total and the limit;
at or below, construction succeeds. -/
theorem create_email_message_size_cap :
    maxAttachmentBytes = 25165824 ∧
    ∀ (fs : String → Option Nat) (args : EmailArgs) (p0 : String) (ps : List String),
      args.attachments = some (p0 :: ps) →
      args.toAddrs.find? (fun a => !validate_email a) = none →
      (∀ p ∈ p0 :: ps, (fs p).isSome = true) →
      (maxAttachmentBytes < ((p0 :: ps).map (fun p => (fs p).getD 0)).sum →
        create_email_message fs args =
          .error ("Attachments too large: total "
                  ++ toString (((p0 :: ps).map (fun p => (fs p).getD 0)).sum)
                  ++ " bytes exceeds limit " ++ toString maxAttachmentBytes
                  ++ " bytes")) ∧
      (((p0 :: ps).map (fun p => (fs p).getD 0)).sum ≤ maxAttachmentBytes →
        create_email_message fs args =
          .ok (.multipart (multipartHeaders args) (args.body.getD "") (p0 :: ps))) := by
  have hfindnone : ∀ (fs : String → Option Nat) (p0 : String) (ps : List String),
      (∀ p ∈ p0 :: ps, (fs p).isSome = true) →
      (p0 :: ps).find? (fun p => (fs p).isNone) = none := by
    intro fs p0 ps hfiles
    rw [List.find?_eq_none]
    intro p hp hcon
    have h := hfiles p hp
    rw [Option.isNone_iff_eq_none] at hcon
    rw [hcon] at h
    simp at h
  refine ⟨rfl, fun fs args p0 ps hatt hto hfiles => ⟨fun hover => ?_, fun hunder => ?_⟩⟩
  · simp only [create_email_message, hto, hatt, hfindnone fs p0 ps hfiles]
    rw [if_pos (by exact hover)]
  · simp only [create_email_message, hto, hatt, hfindnone fs p0 ps hfiles]
    rw [if_neg (by omega)]

/-- C2 witness: one existing 25,165,825-byte attachment aborts with the
size-limit error reporting the total and the limit. -/
theorem create_email_message_size_cap_witness :
    create_email_message fsBig argsBigAtt =
      .error ("Attachments too large: total " ++ toString 25165825
              ++ " bytes exceeds limit " ++ toString 25165824 ++ " bytes") := by
  have h := (create_email_message_size_cap.2 fsBig argsBigAtt "/tmp/big" []
    (by rfl) (by rfl) (by decide)).1 (by decide)
  exact h

/-- C2 counterexample: a request in the claim's scope (non-empty
attachment list, every path an existing file, total 25,165,825 bytes
over the cap) whose `to` address is malformed aborts with the
address-format error, not with a size-limit error containing the total
and the limit. -/
theorem size_error_preempted_by_address_error :
    (fsBig "/tmp/big").isSome = true ∧
    (["/tmp/big"].map (fun p => (fsBig p).getD 0)).sum = 25165825 ∧
    maxAttachmentBytes < 25165825 ∧
    create_email_message fsBig argsBadToBigAtt = .error "Invalid email address: bad" ∧
    "Invalid email address: bad" ≠
      ("Attachments too large: total " ++ toString 25165825
       ++ " bytes exceeds limit " ++ toString 25165824 ++ " bytes") := by
  exact ⟨by decide, by decide, by decide, by rfl, by decide⟩

/-- C7 (amended): the Subject header value is RFC 2047-wrapped as
`=?UTF-8?b?...?=` (base64 of its UTF-8 bytes) exactly when it contains a
non-ASCII character, and passes through unchanged when ASCII-only; the
other header values (From, To, ...) are emitted verbatim, unwrapped even
when they contain non-ASCII characters. -/
theorem subject_header_rfc2047 :
    (∀ (s : String),
      (hasNonAscii s = true →
        encode_email_header s =
          "=?UTF-8?b?" ++ String.mk (b64encode (utf8Encode s)) ++ "?=") ∧
      (hasNonAscii s = false → encode_email_header s = s)) ∧
    ∀ (args : EmailArgs),
      ("Subject: " ++ encode_email_header (args.subject.getD "")) ∈ plainHeaders args ∧
      ("Subject: " ++ encode_email_header (args.subject.getD "")) ∈ multipartHeaders args ∧
      ("To: " ++ String.intercalate ", " args.toAddrs) ∈ plainHeaders args := by
  constructor
  · intro s
    constructor
    · intro h
      simp [encode_email_header, h]
    · intro h
      simp [encode_email_header, h]
  · intro args
    refine ⟨?_, ?_, ?_⟩
    · simp [plainHeaders]
    · simp [multipartHeaders]
    · simp [plainHeaders]

/-- C7 witness: a concrete non-ASCII subject is wrapped, a concrete
ASCII subject is not, and the Subject line appears in the headers. -/
theorem subject_header_rfc2047_witness :
    (hasNonAscii "héllo" = true →
      encode_email_header "héllo" =
        "=?UTF-8?b?" ++ String.mk (b64encode (utf8Encode "héllo")) ++ "?=") ∧
    ("Subject: " ++ encode_email_header (argsNonAsciiTo.subject.getD ""))
        ∈ plainHeaders argsNonAsciiTo := by
  exact ⟨(subject_header_rfc2047.1 "héllo").1,
         (subject_header_rfc2047.2 argsNonAsciiTo).1⟩

/-- C7 counterexample: a valid `to` address containing a non-ASCII
character is emitted verbatim in the serialized message's To header,
not wrapped in the `=?UTF-8?b?...?=` form, so not every non-ASCII header
value is RFC 2047-wrapped. -/
theorem to_header_not_rfc2047_wrapped :
    validate_email "ü@b.c" = true ∧
    hasNonAscii "ü@b.c" = true ∧
    create_email_message fsEmpty argsNonAsciiTo = .ok (.plain (plainMessage argsNonAsciiTo)) ∧
    ("To: ü@b.c") ∈ plainHeaders argsNonAsciiTo ∧
    "ü@b.c".data.take 10 ≠ "=?UTF-8?b?".data := by
  exact ⟨by decide, by decide, by rfl, by decide, by decide⟩

/-- C9: `delete_label` refuses to delete a label whose fetched type is
`system`, raising the cannot-delete error without issuing the remote
delete call; the delete call is issued only for labels whose type is not
`system`. -/
theorem delete_label_system_guard :
    (∀ (labels : List LabelData) (label_id : String) (data : LabelData),
      labels.find? (fun l => l.id = some label_id) = some data →
      data.ltype = some "system" →
      delete_label labels label_id =
        (.error ("Cannot delete system label '" ++ label_id ++ "'"), false)) ∧
    ∀ (labels : List LabelData) (label_id : String),
      (delete_label labels label_id).2 = true →
      ∃ data, labels.find? (fun l => l.id = some label_id) = some data ∧
        data.ltype ≠ some "system" := by
  constructor
  · intro labels label_id data hfind htype
    simp [delete_label, hfind, htype]
  · intro labels label_id hissued
    cases hfind : labels.find? (fun l => l.id = some label_id) with
    | none => simp [delete_label, hfind] at hissued
    | some data =>
      by_cases htype : data.ltype = some "system"
      · simp [delete_label, hfind, htype] at hissued
      · exact ⟨data, rfl, htype⟩

/-- C9 witness: deleting the system label INBOX from a concrete store
raises the cannot-delete error and never issues the delete call. -/
theorem delete_label_system_guard_witness :
    delete_label labelsOneSystem "INBOX" =
      (.error ("Cannot delete system label '" ++ "INBOX" ++ "'"), false) :=
  delete_label_system_guard.1 labelsOneSystem "INBOX"
    { id := some "INBOX", name := some "INBOX", ltype := some "system",
      messageListVisibility := none, labelListVisibility := none,
      messagesTotal := none, messagesUnread := none, color := none }
    (by rfl) (by rfl)

/-- C10: when no label name matches the query case-insensitively,
`find_label_by_name` returns `none` without raising; the public tool
then dereferences that `None` and fails with an `AttributeError`, not
with a `ValueError` naming the requested name. -/
theorem find_label_tool_attribute_error_on_miss :
    ∀ (labels : List LabelData) (name : String),
      (∀ d ∈ labels, pyLower (d.name.getD "") ≠ pyLower name) →
      find_label_by_name labels name = none ∧
      find_label_by_name_tool labels name
          = .error (.attributeError "'NoneType' object has no attribute 'id'") ∧
      ∀ m, find_label_by_name_tool labels name ≠ .error (.valueError m) := by
  intro labels name hmiss
  have hfind : labels.find?
      (fun d => pyLower (d.name.getD "") = pyLower name) = none := by
    rw [List.find?_eq_none]
    intro d hd
    simpa using hmiss d hd
  have h1 : find_label_by_name labels name = none := by
    simp [find_label_by_name, hfind]
  refine ⟨h1, ?_, ?_⟩
  · simp [find_label_by_name_tool, h1]
  · intro m
    simp [find_label_by_name_tool, h1]

/-- C10 witness: querying "play" against a store holding only "Work"
returns `none` and the tool fails with the `AttributeError`. -/
theorem find_label_tool_attribute_error_on_miss_witness :
    find_label_by_name labelsOneUser "play" = none ∧
    find_label_by_name_tool labelsOneUser "play"
        = .error (.attributeError "'NoneType' object has no attribute 'id'") ∧
    ∀ m, find_label_by_name_tool labelsOneUser "play" ≠ .error (.valueError m) :=
  find_label_tool_attribute_error_on_miss labelsOneUser "play" (by decide)

/-! ### Round-trip of the base64url / UTF-8 pipeline (claim C3) -/

/-- Decoding a URL-safe alphabet character recovers its 6-bit value. -/
theorem b64url_dec_enc (n : Nat) (h : n < 64) :
    b64urlDecChar (b64char b64urlAlphabet n) = some n := by
  interval_cases n <;> rfl

/-- No alphabet character is the padding character. -/
theorem b64url_char_ne_pad (n : Nat) : b64char b64urlAlphabet n ≠ '=' := by
  by_cases h : n < 64
  · interval_cases n <;> decide
  · rw [b64char, List.getD_eq_default]
    · decide
    · have hlen : b64urlAlphabet.length = 64 := rfl
      omega

/-- Base64url decoding undoes base64url encoding on byte lists. -/
theorem b64url_roundtrip :
    ∀ (bs : List Nat), (∀ b ∈ bs, b < 256) →
      urlsafe_b64decode (b64encodeWith b64urlAlphabet bs) = some bs := by
  intro bs
  induction bs using list_chunk3_induction with
  | h0 => intro _; rfl
  | h1 b0 =>
    intro h
    have hb0 : b0 < 256 := h b0 (by simp)
    simp only [b64encodeWith, urlsafe_b64decode,
      b64url_dec_enc (b0 / 4) (by omega), b64url_dec_enc (b0 % 4 * 16) (by omega),
      and_self, if_true]
    simp only [Option.some.injEq, List.cons.injEq, and_true]
    omega
  | h2 b0 b1 =>
    intro h
    have hb0 : b0 < 256 := h b0 (by simp)
    have hb1 : b1 < 256 := h b1 (by simp)
    simp only [b64encodeWith, urlsafe_b64decode,
      b64url_dec_enc (b0 / 4) (by omega),
      b64url_dec_enc (b0 % 4 * 16 + b1 / 16) (by omega),
      b64url_dec_enc (b1 % 16 * 4) (by omega),
      if_neg (b64url_char_ne_pad (b1 % 16 * 4)), if_true]
    simp only [Option.some.injEq, List.cons.injEq, and_true]
    constructor <;> omega
  | h3 b0 b1 b2 rest ih =>
    intro h
    have hb0 : b0 < 256 := h b0 (by simp)
    have hb1 : b1 < 256 := h b1 (by simp)
    have hb2 : b2 < 256 := h b2 (by simp)
    have hrest : ∀ b ∈ rest, b < 256 := fun b hb => h b (by simp [hb])
    simp only [b64encodeWith, urlsafe_b64decode,
      b64url_dec_enc (b0 / 4) (by omega),
      b64url_dec_enc (b0 % 4 * 16 + b1 / 16) (by omega),
      b64url_dec_enc (b1 % 16 * 4 + b2 / 64) (by omega),
      b64url_dec_enc (b2 % 64) (by omega),
      if_neg (b64url_char_ne_pad (b1 % 16 * 4 + b2 / 64)),
      if_neg (b64url_char_ne_pad (b2 % 64)), ih hrest]
    simp only [Option.some.injEq, List.cons.injEq]
    refine ⟨by omega, by omega, by omega, trivial⟩

/-- The encoding of a non-empty byte list contains a non-padding
character (its first character is from the alphabet). -/
theorem b64encode_has_nonpad (b : Nat) (rest : List Nat) :
    ∃ y ∈ b64encodeWith b64urlAlphabet (b :: rest), y ≠ '=' := by
  match rest with
  | [] =>
    exact ⟨b64char b64urlAlphabet (b / 4), by simp [b64encodeWith],
           b64url_char_ne_pad _⟩
  | [b1] =>
    exact ⟨b64char b64urlAlphabet (b / 4), by simp [b64encodeWith],
           b64url_char_ne_pad _⟩
  | b1 :: b2 :: rest2 =>
    exact ⟨b64char b64urlAlphabet (b / 4), by simp [b64encodeWith],
           b64url_char_ne_pad _⟩

/-- Stripping trailing padding distributes over an append whose right
part has a non-padding character. -/
theorem rstripEq_append (xs ys : List Char) (h : ∃ y ∈ ys, y ≠ '=') :
    rstripEq (xs ++ ys) = xs ++ rstripEq ys := by
  unfold rstripEq
  rw [List.reverse_append, List.dropWhile_append]
  have hne : ys.reverse.dropWhile (· = '=') ≠ [] := by
    intro hnil
    rw [List.dropWhile_eq_nil_iff] at hnil
    obtain ⟨y, hy, hy2⟩ := h
    have := hnil y (List.mem_reverse.mpr hy)
    simp at this
    exact hy2 this
  rw [if_neg (by simpa [List.isEmpty_eq_true] using hne)]
  rw [List.reverse_append, List.reverse_reverse]

/-- `restorePad` ignores a four-character prefix. -/
theorem restorePad_cons4 (c0 c1 c2 c3 : Char) (s : List Char) :
    restorePad (c0 :: c1 :: c2 :: c3 :: s) = c0 :: c1 :: c2 :: c3 :: restorePad s := by
  simp only [restorePad, List.length_cons, List.cons_append]
  have harith : (4 - (s.length + 1 + 1 + 1 + 1) % 4) % 4 = (4 - s.length % 4) % 4 := by
    omega
  rw [harith]

/-- Restoring the padding that `rstrip("=")` removed reproduces the
padded encoding exactly. -/
theorem restore_strip :
    ∀ (bs : List Nat),
      restorePad (rstripEq (b64encodeWith b64urlAlphabet bs)) =
        b64encodeWith b64urlAlphabet bs := by
  intro bs
  induction bs using list_chunk3_induction with
  | h0 => rfl
  | h1 b0 =>
    have hc : b64char b64urlAlphabet (b0 % 4 * 16) ≠ '=' := b64url_char_ne_pad _
    simp [b64encodeWith, rstripEq, restorePad, List.dropWhile_cons, hc]
  | h2 b0 b1 =>
    have hc : b64char b64urlAlphabet (b1 % 16 * 4) ≠ '=' := b64url_char_ne_pad _
    simp [b64encodeWith, rstripEq, restorePad, List.dropWhile_cons, hc]
  | h3 b0 b1 b2 rest ih =>
    cases rest with
    | nil =>
      have hc : b64char b64urlAlphabet (b2 % 64) ≠ '=' := b64url_char_ne_pad _
      simp [b64encodeWith, rstripEq, restorePad, List.dropWhile_cons, hc]
    | cons r rs =>
      have hsplit : b64encodeWith b64urlAlphabet (b0 :: b1 :: b2 :: r :: rs) =
          [b64char b64urlAlphabet (b0 / 4), b64char b64urlAlphabet (b0 % 4 * 16 + b1 / 16),
           b64char b64urlAlphabet (b1 % 16 * 4 + b2 / 64), b64char b64urlAlphabet (b2 % 64)]
          ++ b64encodeWith b64urlAlphabet (r :: rs) := by
        simp [b64encodeWith]
      rw [hsplit, rstripEq_append _ _ (b64encode_has_nonpad r rs)]
      simp only [List.cons_append, List.nil_append]
      rw [restorePad_cons4, ih]

/-- Every byte produced by the UTF-8 encoder is below 256. -/
theorem utf8EncodeChar_lt (c : Char) : ∀ b ∈ utf8EncodeChar c, b < 256 := by
  have hval : c.toNat < 0xD800 ∨ (0xDFFF < c.toNat ∧ c.toNat < 0x110000) := c.valid
  intro b hb
  rw [utf8EncodeChar] at hb
  by_cases h1 : c.toNat < 0x80
  · simp only [h1, if_true, List.mem_singleton] at hb
    omega
  · by_cases h2 : c.toNat < 0x800
    · simp only [h1, h2, if_true, if_false, List.mem_cons, List.mem_singleton,
        List.not_mem_nil, or_false] at hb
      rcases hb with rfl | rfl <;> omega
    · by_cases h3 : c.toNat < 0x10000
      · simp only [h1, h2, h3, if_true, if_false, List.mem_cons,
          List.not_mem_nil, or_false] at hb
        rcases hb with rfl | rfl | rfl <;> omega
      · simp only [h1, h2, h3, if_false, List.mem_cons,
          List.not_mem_nil, or_false] at hb
        rcases hb with rfl | rfl | rfl | rfl <;> omega

/-- Decoding the encoding of one character peels off exactly that
character. -/
theorem utf8Decode_encodeChar_append (c : Char) (rest : List Nat) :
    utf8Decode (utf8EncodeChar c ++ rest) = (utf8Decode rest).map (c :: ·) := by
  have hval : c.toNat < 0xD800 ∨ (0xDFFF < c.toNat ∧ c.toNat < 0x110000) := c.valid
  have hofnat : Char.ofNat c.toNat = c := Char.ofNat_toNat c
  by_cases h1 : c.toNat < 0x80
  · have henc : utf8EncodeChar c = [c.toNat] := by
      rw [utf8EncodeChar]; simp only [h1, if_false, if_true]
    rw [henc, List.cons_append, List.nil_append]
    simp only [utf8Decode, h1, if_true, hofnat]
  · by_cases h2 : c.toNat < 0x800
    · have henc : utf8EncodeChar c = [0xC0 + c.toNat / 64, 0x80 + c.toNat % 64] := by
        rw [utf8EncodeChar]; simp only [h1, h2, if_false, if_true]
      have hcp : utf8Cp2 (0xC0 + c.toNat / 64) (0x80 + c.toNat % 64) = some c.toNat := by
        rw [utf8Cp2, if_pos ⟨by omega, by omega, by omega⟩]
        simp only [Option.some.injEq]
        omega
      have ha : ¬(0xC0 + c.toNat / 64 < 0x80) := by omega
      have hb : 0xC0 + c.toNat / 64 < 0xE0 := by omega
      rw [henc]
      simp only [List.cons_append, List.nil_append]
      simp only [utf8Decode, ha, hb, if_false, if_true, utf8DecodeTwo, hcp, hofnat]
    · by_cases h3 : c.toNat < 0x10000
      · have henc : utf8EncodeChar c =
            [0xE0 + c.toNat / 4096, 0x80 + c.toNat / 64 % 64, 0x80 + c.toNat % 64] := by
          rw [utf8EncodeChar]; simp only [h1, h2, h3, if_false, if_true]
        have hcp : utf8Cp3 (0xE0 + c.toNat / 4096) (0x80 + c.toNat / 64 % 64)
            (0x80 + c.toNat % 64) = some c.toNat := by
          simp only [utf8Cp3]
          rw [if_pos ⟨⟨by omega, by omega⟩, ⟨by omega, by omega⟩, by omega, by omega⟩]
          simp only [Option.some.injEq]
          omega
        have ha : ¬(0xE0 + c.toNat / 4096 < 0x80) := by omega
        have hb : ¬(0xE0 + c.toNat / 4096 < 0xE0) := by omega
        have hc : 0xE0 + c.toNat / 4096 < 0xF0 := by omega
        rw [henc]
        simp only [List.cons_append, List.nil_append]
        simp only [utf8Decode, ha, hb, hc, if_false, if_true,
          utf8DecodeThree, utf8DecodeThreeB, hcp, hofnat]
      · have h4 : c.toNat < 0x110000 := by omega
        have henc : utf8EncodeChar c =
            [0xF0 + c.toNat / 262144, 0x80 + c.toNat / 4096 % 64,
             0x80 + c.toNat / 64 % 64, 0x80 + c.toNat % 64] := by
          rw [utf8EncodeChar]; simp only [h1, h2, h3, if_false, if_true]
        have hcp : utf8Cp4 (0xF0 + c.toNat / 262144) (0x80 + c.toNat / 4096 % 64)
            (0x80 + c.toNat / 64 % 64) (0x80 + c.toNat % 64) = some c.toNat := by
          simp only [utf8Cp4]
          rw [if_pos ⟨by omega, ⟨by omega, by omega⟩, ⟨by omega, by omega⟩,
            ⟨by omega, by omega⟩, by omega, by omega⟩]
          simp only [Option.some.injEq]
          omega
        have ha : ¬(0xF0 + c.toNat / 262144 < 0x80) := by omega
        have hb : ¬(0xF0 + c.toNat / 262144 < 0xE0) := by omega
        have hc : ¬(0xF0 + c.toNat / 262144 < 0xF0) := by omega
        rw [henc]
        simp only [List.cons_append, List.nil_append]
        simp only [utf8Decode, ha, hb, hc, if_false, if_true,
          utf8DecodeFour, utf8DecodeFourB, utf8DecodeFourC, hcp, hofnat]

/-- UTF-8 decoding undoes UTF-8 encoding of a character list. -/
theorem utf8Decode_encode_list (l : List Char) :
    utf8Decode ((l.map utf8EncodeChar).flatten) = some l := by
  induction l with
  | nil => rfl
  | cons c cs ih =>
    rw [List.map_cons, List.flatten_cons, utf8Decode_encodeChar_append, ih]
    rfl

/-- C3: for every text `T`, the padding-restoring base64url decoder is a
left inverse of base64url encoding with the `=` padding stripped:
`decode_base64url` applied to `urlsafe_b64encode` of `T`'s UTF-8 bytes
with trailing `=` removed reconstructs `T` exactly. -/
theorem decode_base64url_left_inverse :
    ∀ (T : String),
      decode_base64url (rstripEq (urlsafe_b64encode (utf8Encode T))) = some T.data := by
  intro T
  have hbytes : ∀ b ∈ utf8Encode T, b < 256 := by
    intro b hb
    rw [utf8Encode, List.mem_flatten] at hb
    obtain ⟨l, hl, hbl⟩ := hb
    rw [List.mem_map] at hl
    obtain ⟨c, _, rfl⟩ := hl
    exact utf8EncodeChar_lt c b hbl
  rw [decode_base64url, urlsafe_b64encode, restore_strip,
      b64url_roundtrip (utf8Encode T) hbytes]
  exact utf8Decode_encode_list T.data

/-! ### Traversal order of `extract_email_body` (claims C5, C6) -/

/-- A successfully handled inline payload contributes exactly its
`text/plain` decoding to the text side and its filtered `text/html`
rendering to the HTML side. -/
theorem ownPayload_heads (mt : Option String) (bd : Option (List Char))
    (th : List Char × List Char) (hown : ownPayload mt bd = some th) :
    th.1 = (plainOwn mt bd).flatten ∧ th.2 = (htmlOwn mt bd).flatten := by
  rcases bd with _ | data
  · simp only [ownPayload, Option.some.injEq] at hown
    rw [← hown]
    simp [plainOwn, htmlOwn]
  · cases hdec : decode_base64url data with
    | none =>
      simp only [ownPayload, hdec] at hown
      exact Option.noConfusion hown
    | some content =>
      simp only [ownPayload, hdec] at hown
      by_cases hp : mt = some "text/plain"
      · rw [if_pos hp] at hown
        injection hown with hown
        rw [← hown]
        simp [plainOwn, htmlOwn, hp, hdec]
      · rw [if_neg hp] at hown
        by_cases hh : mt = some "text/html"
        · rw [if_pos hh] at hown
          injection hown with hown
          rw [← hown]
          simp [plainOwn, htmlOwn, hp, hh, hdec]
        · rw [if_neg hh] at hown
          injection hown with hown
          rw [← hown]
          simp [plainOwn, htmlOwn, hp, hh]

/-- When extraction succeeds, the text accumulator is exactly the
concatenation of the decoded `text/plain` payloads in traversal order
(own payload first, then children in list order, recursively), and the
HTML accumulator is exactly the concatenation of the filtered
`text/html` renderings in the same order. -/
theorem extract_accumulates :
    (∀ (p : MessagePart), ∀ (t h : List Char),
      extract_email_body p = some (t, h) →
      t = (plainPayloads p).flatten ∧ h = (htmlPayloads p).flatten) ∧
    (∀ (acc : List Char × List Char) (l : List MessagePart), ∀ (t h : List Char),
      extract_email_parts acc l = some (t, h) →
      t = acc.1 ++ (plainPayloadsList l).flatten ∧
      h = acc.2 ++ (htmlPayloadsList l).flatten) := by
  refine extract_email_body.mutual_induct
    (fun p => ∀ t h, extract_email_body p = some (t, h) →
      t = (plainPayloads p).flatten ∧ h = (htmlPayloads p).flatten)
    (fun acc l => ∀ t h, extract_email_parts acc l = some (t, h) →
      t = acc.1 ++ (plainPayloadsList l).flatten ∧
      h = acc.2 ++ (htmlPayloadsList l).flatten)
    ?_ ?_ ?_ ?_ ?_
  · intro mt bd parts hown t h he
    simp only [extract_email_body, hown] at he
    exact Option.noConfusion he
  · intro mt bd parts th hown ih t h he
    simp only [extract_email_body, hown] at he
    obtain ⟨ht, hh⟩ := ih t h he
    obtain ⟨h1, h2⟩ := ownPayload_heads mt bd th hown
    constructor
    · rw [ht, h1, plainPayloads, List.flatten_append]
    · rw [hh, h2, htmlPayloads, List.flatten_append]
  · intro th t h he
    simp only [extract_email_parts, Option.some.injEq] at he
    subst he
    exact ⟨by simp [plainPayloadsList], by simp [htmlPayloadsList]⟩
  · intro th p rest hnone _ t h he
    simp only [extract_email_parts, hnone] at he
    exact Option.noConfusion he
  · intro th p rest th1 hsome ihp ihrest t h he
    simp only [extract_email_parts, hsome] at he
    obtain ⟨ht, hh⟩ := ihrest t h he
    obtain ⟨hp1, hp2⟩ := ihp th1.1 th1.2 (by rw [hsome])
    constructor
    · rw [ht]
      simp only [plainPayloadsList, List.flatten_append]
      rw [hp1]
      simp [List.append_assoc]
    · rw [hh]
      simp only [htmlPayloadsList, List.flatten_append]
      rw [hp2]
      simp [List.append_assoc]

/-- C5: body extraction visits each part's own inline payload first and
then recurses into its children in list order with no depth limit; the
text accumulator is exactly the concatenation of the decoded
`text/plain` payloads in that traversal order, and the example tree with
leaves "Hello" (depth one) and " world" (depth two) extracts to
"Hello world". -/
theorem extract_email_body_text_traversal :
    (∀ (p : MessagePart) (t h : List Char),
      extract_email_body p = some (t, h) → t = (plainPayloads p).flatten) ∧
    decode_base64url "SGVsbG8".data = some "Hello".data ∧
    decode_base64url "IHdvcmxk".data = some " world".data ∧
    extract_email_body helloWorldTree = some ("Hello world".data, []) := by
  refine ⟨fun p t h he => (extract_accumulates.1 p t h he).1, by decide, by decide, by decide⟩

/-- C5 witness: the general traversal theorem applied to the concrete
Hello-world tree. -/
theorem extract_email_body_text_traversal_witness :
    "Hello world".data = (plainPayloads helloWorldTree).flatten :=
  extract_email_body_text_traversal.1 helloWorldTree "Hello world".data [] (by decide)

/-- C6: a `text/html` part's decoded payload is parsed and only the text
content of `p` and `div` elements is kept (markup discarded), the
fragments joined with newlines into the HTML accumulator; the part
`<div>A</div><p>B</p>` yields `A\nB`, also through the whole extraction
pipeline. -/
theorem extract_email_body_html_filtering :
    (∀ (p : MessagePart) (t h : List Char),
      extract_email_body p = some (t, h) → h = (htmlPayloads p).flatten) ∧
    (∀ (content : List Char),
      htmlExtract content =
        List.intercalate ['\n'] ((findAllPDiv (parseHTML content)).map getTextStrip)) ∧
    htmlExtract "<div>A</div><p>B</p>".data = "A\nB".data ∧
    extract_email_body divAPBTree = some ([], "A\nB".data) := by
  refine ⟨fun p t h he => (extract_accumulates.1 p t h he).2, fun content => rfl,
    by decide, by decide⟩

/-- C6 witness: the general HTML-accumulation theorem applied to the
concrete `<div>A</div><p>B</p>` part. -/
theorem extract_email_body_html_filtering_witness :
    "A\nB".data = (htmlPayloads divAPBTree).flatten :=
  extract_email_body_html_filtering.1 divAPBTree [] "A\nB".data (by decide)

/-! ### Color validation in `update_label_tool` (claim C8) -/

theorem namesInvalidColor_cons (kv : String × UpdateValue)
    (raw : List (String × UpdateValue)) (e : Except String (List (String × UpdateValue)))
    (h : namesInvalidColor raw e) : namesInvalidColor (kv :: raw) e := by
  obtain ⟨v, ⟨he, hnv, bg, hm⟩ | ⟨he, hnv, tc, hm⟩⟩ := h
  · exact ⟨v, Or.inl ⟨he, hnv, bg, List.mem_cons_of_mem _ hm⟩⟩
  · exact ⟨v, Or.inr ⟨he, hnv, tc, List.mem_cons_of_mem _ hm⟩⟩

theorem sanitizeLoop_skip (k : String) (v : UpdateValue)
    (rest acc : List (String × UpdateValue)) (htop : k ∉ allowed_top) :
    sanitizeLoop ((k, v) :: rest) acc = sanitizeLoop rest acc := by
  simp [sanitizeLoop, htop]

theorem sanitizeLoop_copy (k : String) (v : UpdateValue)
    (rest acc : List (String × UpdateValue)) (htop : k ∈ allowed_top)
    (hne : k ≠ "color") :
    sanitizeLoop ((k, v) :: rest) acc = sanitizeLoop rest (acc ++ [(k, v)]) := by
  simp [sanitizeLoop, htop, hne]

theorem sanitizeLoop_prim (s : String) (rest acc : List (String × UpdateValue)) :
    sanitizeLoop (("color", .prim s) :: rest) acc = sanitizeLoop rest acc := by
  simp [sanitizeLoop, show ("color" : String) ∈ allowed_top by decide]

theorem sanitizeLoop_bad_text (t : String) (bg : Option String)
    (rest acc : List (String × UpdateValue)) (ht : t ∉ allowed_texts) :
    sanitizeLoop (("color", .colorObj (some t) bg) :: rest) acc
      = .error ("Invalid textColor: " ++ t) := by
  simp [sanitizeLoop, show ("color" : String) ∈ allowed_top by decide, ht]

theorem sanitizeLoop_bad_bg_some (t b : String)
    (rest acc : List (String × UpdateValue)) (ht : t ∈ allowed_texts)
    (hb : b ∉ allowed_backgrounds) :
    sanitizeLoop (("color", .colorObj (some t) (some b)) :: rest) acc
      = .error ("Invalid backgroundColor: " ++ b) := by
  simp [sanitizeLoop, show ("color" : String) ∈ allowed_top by decide, ht, hb]

theorem sanitizeLoop_good_both (t b : String)
    (rest acc : List (String × UpdateValue)) (ht : t ∈ allowed_texts)
    (hb : b ∈ allowed_backgrounds) :
    sanitizeLoop (("color", .colorObj (some t) (some b)) :: rest) acc
      = sanitizeLoop rest (acc ++ [("color", .colorObj (some t) (some b))]) := by
  simp [sanitizeLoop, show ("color" : String) ∈ allowed_top by decide, ht, hb]

theorem sanitizeLoop_good_text (t : String)
    (rest acc : List (String × UpdateValue)) (ht : t ∈ allowed_texts) :
    sanitizeLoop (("color", .colorObj (some t) none) :: rest) acc
      = sanitizeLoop rest (acc ++ [("color", .colorObj (some t) none)]) := by
  simp [sanitizeLoop, show ("color" : String) ∈ allowed_top by decide, ht]

theorem sanitizeLoop_bad_bg_none (b : String)
    (rest acc : List (String × UpdateValue)) (hb : b ∉ allowed_backgrounds) :
    sanitizeLoop (("color", .colorObj none (some b)) :: rest) acc
      = .error ("Invalid backgroundColor: " ++ b) := by
  simp [sanitizeLoop, show ("color" : String) ∈ allowed_top by decide, hb]

theorem sanitizeLoop_good_bg (b : String)
    (rest acc : List (String × UpdateValue)) (hb : b ∈ allowed_backgrounds) :
    sanitizeLoop (("color", .colorObj none (some b)) :: rest) acc
      = sanitizeLoop rest (acc ++ [("color", .colorObj none (some b))]) := by
  simp [sanitizeLoop, show ("color" : String) ∈ allowed_top by decide, hb]

theorem sanitizeLoop_empty_color (rest acc : List (String × UpdateValue)) :
    sanitizeLoop (("color", .colorObj none none) :: rest) acc = sanitizeLoop rest acc := by
  simp [sanitizeLoop, show ("color" : String) ∈ allowed_top by decide]
theorem sanitizeLoop_error_of_bad :
    ∀ (raw acc : List (String × UpdateValue)),
      hasInvalidColorField raw →
      namesInvalidColor raw (sanitizeLoop raw acc) := by
  intro raw
  induction raw with
  | nil =>
    intro acc hbad
    obtain ⟨tc, bg, hmem, _⟩ := hbad
    exact absurd hmem (List.not_mem_nil _)
  | cons kv rest ih =>
    obtain ⟨k, v⟩ := kv
    intro acc hbad
    by_cases htop : k ∈ allowed_top
    · by_cases hcol : k = "color"
      · subst hcol
        cases v with
        | prim s =>
          rw [sanitizeLoop_prim]
          refine namesInvalidColor_cons _ _ _ (ih acc ?_)
          obtain ⟨tc, bg, hmem, hbadf⟩ := hbad
          rcases List.mem_cons.mp hmem with heq | hmem'
          · simp at heq
          · exact ⟨tc, bg, hmem', hbadf⟩
        | colorObj tc bg =>
          match tc with
          | some t =>
            by_cases ht : t ∈ allowed_texts
            · match bg with
              | some b =>
                by_cases hb : b ∈ allowed_backgrounds
                · rw [sanitizeLoop_good_both t b rest acc ht hb]
                  refine namesInvalidColor_cons _ _ _ (ih _ ?_)
                  obtain ⟨tc', bg', hmem, hbadf⟩ := hbad
                  rcases List.mem_cons.mp hmem with heq | hmem'
                  · rw [Prod.mk.injEq, UpdateValue.colorObj.injEq] at heq
                    obtain ⟨-, htc', hbg'⟩ := heq
                    rcases hbadf with ⟨t', ht1, ht2⟩ | ⟨b', hb1, hb2⟩
                    · rw [htc'] at ht1
                      injection ht1 with ht1
                      exact absurd (ht1 ▸ ht) ht2
                    · rw [hbg'] at hb1
                      injection hb1 with hb1
                      exact absurd (hb1 ▸ hb) hb2
                  · exact ⟨tc', bg', hmem', hbadf⟩
                · rw [sanitizeLoop_bad_bg_some t b rest acc ht hb]
                  exact ⟨b, Or.inr ⟨rfl, hb, some t, List.mem_cons_self _ _⟩⟩
              | none =>
                rw [sanitizeLoop_good_text t rest acc ht]
                refine namesInvalidColor_cons _ _ _ (ih _ ?_)
                obtain ⟨tc', bg', hmem, hbadf⟩ := hbad
                rcases List.mem_cons.mp hmem with heq | hmem'
                · rw [Prod.mk.injEq, UpdateValue.colorObj.injEq] at heq
                  obtain ⟨-, htc', hbg'⟩ := heq
                  rcases hbadf with ⟨t', ht1, ht2⟩ | ⟨b', hb1, hb2⟩
                  · rw [htc'] at ht1
                    injection ht1 with ht1
                    exact absurd (ht1 ▸ ht) ht2
                  · rw [hbg'] at hb1
                    exact Option.noConfusion hb1
                · exact ⟨tc', bg', hmem', hbadf⟩
            · rw [sanitizeLoop_bad_text t bg rest acc ht]
              exact ⟨t, Or.inl ⟨rfl, ht, bg, List.mem_cons_self _ _⟩⟩
          | none =>
            match bg with
            | some b =>
              by_cases hb : b ∈ allowed_backgrounds
              · rw [sanitizeLoop_good_bg b rest acc hb]
                refine namesInvalidColor_cons _ _ _ (ih _ ?_)
                obtain ⟨tc', bg', hmem, hbadf⟩ := hbad
                rcases List.mem_cons.mp hmem with heq | hmem'
                · rw [Prod.mk.injEq, UpdateValue.colorObj.injEq] at heq
                  obtain ⟨-, htc', hbg'⟩ := heq
                  rcases hbadf with ⟨t', ht1, ht2⟩ | ⟨b', hb1, hb2⟩
                  · rw [htc'] at ht1
                    exact Option.noConfusion ht1
                  · rw [hbg'] at hb1
                    injection hb1 with hb1
                    exact absurd (hb1 ▸ hb) hb2
                · exact ⟨tc', bg', hmem', hbadf⟩
              · rw [sanitizeLoop_bad_bg_none b rest acc hb]
                exact ⟨b, Or.inr ⟨rfl, hb, none, List.mem_cons_self _ _⟩⟩
            | none =>
              rw [sanitizeLoop_empty_color]
              refine namesInvalidColor_cons _ _ _ (ih acc ?_)
              obtain ⟨tc', bg', hmem, hbadf⟩ := hbad
              rcases List.mem_cons.mp hmem with heq | hmem'
              · rw [Prod.mk.injEq, UpdateValue.colorObj.injEq] at heq
                obtain ⟨-, htc', hbg'⟩ := heq
                rcases hbadf with ⟨t', ht1, ht2⟩ | ⟨b', hb1, hb2⟩
                · rw [htc'] at ht1
                  exact Option.noConfusion ht1
                · rw [hbg'] at hb1
                  exact Option.noConfusion hb1
              · exact ⟨tc', bg', hmem', hbadf⟩
      · rw [sanitizeLoop_copy k v rest acc htop hcol]
        refine namesInvalidColor_cons _ _ _ (ih _ ?_)
        obtain ⟨tc, bg, hmem, hbadf⟩ := hbad
        rcases List.mem_cons.mp hmem with heq | hmem'
        · rw [Prod.mk.injEq] at heq
          exact absurd heq.1.symm hcol
        · exact ⟨tc, bg, hmem', hbadf⟩
    · rw [sanitizeLoop_skip k v rest acc htop]
      refine namesInvalidColor_cons _ _ _ (ih acc ?_)
      obtain ⟨tc, bg, hmem, hbadf⟩ := hbad
      rcases List.mem_cons.mp hmem with heq | hmem'
      · rw [Prod.mk.injEq] at heq
        exact absurd (heq.1.symm ▸ htop) (by decide)
      · exact ⟨tc, bg, hmem', hbadf⟩
theorem sanitizeLoop_ok_colors :
    ∀ (raw acc out : List (String × UpdateValue)),
      sanitizeLoop raw acc = .ok out →
      ∀ (tc bg : Option String), ("color", UpdateValue.colorObj tc bg) ∈ out →
        ("color", UpdateValue.colorObj tc bg) ∈ acc ∨
        ((tc.isSome ∨ bg.isSome) ∧ (∀ t, tc = some t → t ∈ allowed_texts) ∧
         (∀ b, bg = some b → b ∈ allowed_backgrounds)) := by
  intro raw
  induction raw with
  | nil =>
    intro acc out he tc bg hmem
    rw [sanitizeLoop] at he
    by_cases hacc : acc.isEmpty
    · rw [if_pos hacc] at he
      exact Except.noConfusion he
    · rw [if_neg hacc] at he
      injection he with he
      rw [← he] at hmem
      exact Or.inl hmem
  | cons kv rest ih =>
    obtain ⟨k, v⟩ := kv
    intro acc out he tc bg hmem
    by_cases htop : k ∈ allowed_top
    · by_cases hcol : k = "color"
      · subst hcol
        cases v with
        | prim s =>
          rw [sanitizeLoop_prim] at he
          exact ih acc out he tc bg hmem
        | colorObj tc0 bg0 =>
          match tc0 with
          | some t =>
            by_cases ht : t ∈ allowed_texts
            · match bg0 with
              | some b =>
                by_cases hb : b ∈ allowed_backgrounds
                · rw [sanitizeLoop_good_both t b rest acc ht hb] at he
                  rcases ih _ out he tc bg hmem with hacc | hgood
                  · rcases List.mem_append.mp hacc with h1 | h2
                    · exact Or.inl h1
                    · rw [List.mem_singleton, Prod.mk.injEq, UpdateValue.colorObj.injEq] at h2
                      obtain ⟨-, h2t, h2b⟩ := h2
                      refine Or.inr ⟨Or.inl (by rw [h2t]; rfl), ?_, ?_⟩
                      · intro t' ht'
                        rw [h2t] at ht'
                        injection ht' with ht'
                        exact ht' ▸ ht
                      · intro b' hb'
                        rw [h2b] at hb'
                        injection hb' with hb'
                        exact hb' ▸ hb
                  · exact Or.inr hgood
                · rw [sanitizeLoop_bad_bg_some t b rest acc ht hb] at he
                  exact Except.noConfusion he
              | none =>
                rw [sanitizeLoop_good_text t rest acc ht] at he
                rcases ih _ out he tc bg hmem with hacc | hgood
                · rcases List.mem_append.mp hacc with h1 | h2
                  · exact Or.inl h1
                  · rw [List.mem_singleton, Prod.mk.injEq, UpdateValue.colorObj.injEq] at h2
                    obtain ⟨-, h2t, h2b⟩ := h2
                    refine Or.inr ⟨Or.inl (by rw [h2t]; rfl), ?_, ?_⟩
                    · intro t' ht'
                      rw [h2t] at ht'
                      injection ht' with ht'
                      exact ht' ▸ ht
                    · intro b' hb'
                      rw [h2b] at hb'
                      exact Option.noConfusion hb'
                · exact Or.inr hgood
            · rw [sanitizeLoop_bad_text t bg0 rest acc ht] at he
              exact Except.noConfusion he
          | none =>
            match bg0 with
            | some b =>
              by_cases hb : b ∈ allowed_backgrounds
              · rw [sanitizeLoop_good_bg b rest acc hb] at he
                rcases ih _ out he tc bg hmem with hacc | hgood
                · rcases List.mem_append.mp hacc with h1 | h2
                  · exact Or.inl h1
                  · rw [List.mem_singleton, Prod.mk.injEq, UpdateValue.colorObj.injEq] at h2
                    obtain ⟨-, h2t, h2b⟩ := h2
                    refine Or.inr ⟨Or.inr (by rw [h2b]; rfl), ?_, ?_⟩
                    · intro t' ht'
                      rw [h2t] at ht'
                      exact Option.noConfusion ht'
                    · intro b' hb'
                      rw [h2b] at hb'
                      injection hb' with hb'
                      exact hb' ▸ hb
                · exact Or.inr hgood
              · rw [sanitizeLoop_bad_bg_none b rest acc hb] at he
                exact Except.noConfusion he
            | none =>
              rw [sanitizeLoop_empty_color] at he
              exact ih acc out he tc bg hmem
      · rw [sanitizeLoop_copy k v rest acc htop hcol] at he
        rcases ih _ out he tc bg hmem with hacc | hgood
        · rcases List.mem_append.mp hacc with h1 | h2
          · exact Or.inl h1
          · rw [List.mem_singleton, Prod.mk.injEq] at h2
            exact absurd h2.1.symm hcol
        · exact Or.inr hgood
    · rw [sanitizeLoop_skip k v rest acc htop] at he
      exact ih acc out he tc bg hmem

/-- C8: for every proposed label-updates map whose color sub-object has
a `textColor` outside the two accepted hex strings or a
`backgroundColor` outside the fixed 24-entry palette, the sanitizer
aborts with a validation error naming the rejected value and its field;
a color object contributes to the sanitized updates only when at least
one of its two fields is present (and every present field is from its
palette); `backgroundColor` `#000000` is rejected and `#16a766` is
accepted. -/
theorem update_label_color_validation :
    (∀ (raw : List (String × UpdateValue)),
      hasInvalidColorField raw →
      namesInvalidColor raw (sanitize_updates raw)) ∧
    (∀ (raw out : List (String × UpdateValue)) (tc bg : Option String),
      sanitize_updates raw = .ok out →
      ("color", UpdateValue.colorObj tc bg) ∈ out →
      (tc.isSome ∨ bg.isSome) ∧ (∀ t, tc = some t → t ∈ allowed_texts) ∧
      (∀ b, bg = some b → b ∈ allowed_backgrounds)) ∧
    sanitize_updates [("color", UpdateValue.colorObj none (some "#000000"))]
        = .error "Invalid backgroundColor: #000000" ∧
    sanitize_updates [("color", UpdateValue.colorObj none (some "#16a766"))]
        = .ok [("color", UpdateValue.colorObj none (some "#16a766"))] := by
  refine ⟨fun raw h => sanitizeLoop_error_of_bad raw [] h,
    fun raw out tc bg he hmem => ?_, by rfl, by rfl⟩
  rcases sanitizeLoop_ok_colors raw [] out he tc bg hmem with habs | hgood
  · exact absurd habs (List.not_mem_nil _)
  · exact hgood

/-- C8 witness: the rejection theorem applied to the concrete map with
`backgroundColor` `#000000`. -/
theorem update_label_color_validation_witness :
    namesInvalidColor [("color", UpdateValue.colorObj none (some "#000000"))]
      (sanitize_updates [("color", UpdateValue.colorObj none (some "#000000"))]) :=
  update_label_color_validation.1 _
    ⟨none, some "#000000", List.mem_singleton.mpr rfl,
     Or.inr ⟨"#000000", rfl, by decide⟩⟩

end GmailMCP
